import Mathlib

/-!
Verification development for the schema-extraction engine in
`codegen/src/parse.rs` of the syn repository.

The Rust source is shallowly embedded: each Lean definition below mirrors one
function or data type of `codegen/src/parse.rs`.  Containers from external
crates are modelled as follows:

* `BTreeMap` (spelling→symbol token table, alias table, item table) is
  modelled as an association list with replace-on-insert (`btInsert`) and
  first-match lookup (`alookup`); iteration order is the list order, and all
  concrete examples below are arranged so that list order and key order agree.
* `types::Features` (crate `syn-codegen`, not part of the crawled sources) is
  modelled from the spec: a feature predicate is a finite set of feature
  names, empty meaning unconditional.
* `types::Node` / `types::Data` / `types::Type` (crate `syn-codegen`) are
  modelled from the spec: a Node carries an identifier, a feature predicate,
  an exhaustiveness flag and either an ordered field mapping (association
  list in declaration order), an ordered variant mapping, or an opaque
  private-struct marker.
* Rust panics (`panic!`, `unimplemented!`, `unwrap`, failed `assert!`) are
  modelled as `Option.none` / `Except.error`: the run aborts with no output.
* The unbounded `while let` alias-resolution loop and the recursive module
  crawl are given explicit fuel; exhausted fuel is rendered as failure, and
  the termination theorems below relate fuel exhaustion to the actual chain
  structure of the alias table.
-/

namespace Syn

/-- Association-list lookup, first match wins; models `BTreeMap::get`. -/
def alookup {α : Type} : List (String × α) → String → Option α
  | [], _ => none
  | (k, v) :: rest, key => if key = k then some v else alookup rest key

/-- Association-list insert, replacing an existing binding for the key;
models `BTreeMap::insert` (and `collect` into a map, later entries winning). -/
def btInsert {α : Type} : List (String × α) → String → α → List (String × α)
  | [], k, v => [(k, v)]
  | (k', v') :: rest, k, v =>
    if k = k' then (k, v) :: rest else (k', v') :: btInsert rest k v

/-- Modelled from the spec: `types::Features` of the `syn-codegen` crate — a
feature predicate, the set of feature names any of which activates the node;
empty means unconditional. -/
structure Features where
  any : Finset String
  deriving DecidableEq

/-- Rust `syn::Visibility`, restricted to what the code inspects
(`is_pub` only distinguishes `Visibility::Public`). -/
inductive Vis where
  | pub_
  | inherited
  deriving DecidableEq

/-- An attribute as consumed by `codegen/src/parse.rs`.  The code only ever
inspects: `#[cfg(...)]` (with its parsed feature predicate, or unparseable),
`#[non_exhaustive]`, `#[doc(hidden)]` versus other `#[doc(...)]`,
`#[path = "..."]`, and everything else. -/
inductive Attr where
  | cfg (features : Features)
  | cfgBad
  | nonExhaustive
  | docHidden
  | docOther
  | pathA (filename : String)
  | otherAttr
  deriving DecidableEq

/-- A Rust type expression as consumed by `introspect_type`: a path (qself
flag, the ident of its *last* segment — the only segment the code reads —
and its generic arguments: `none` for `PathArguments::None`/parenthesized,
each argument `none` when it is not a `GenericArgument::Type`), a tuple, a
macro type (flag: last path segment is `Token`), or any other shape. -/
inductive RsType where
  | path (qself : Bool) (name : String) (args : Option (List (Option RsType)))
  | tuple (elems : List RsType)
  | macTy (tokenPath : Bool) (content : String)
  | otherTy

/-- Modelled from the spec: `types::Type` of the `syn-codegen` crate — the
closed recursive sum of the schema's generic type algebra. -/
inductive SType where
  | syn (name : String)
  | option (t : SType)
  | box (t : SType)
  | vec (t : SType)
  | punctuated (element : SType) (punct : String)
  | group (name : String)
  | ext (name : String)
  | std (name : String)
  | token (name : String)
  | tuple (elems : List SType)

/-- One field of a struct or variant (`syn::Field`): visibility, optional
name, declared type. -/
structure Field where
  vis : Vis
  ident : Option String
  ty : RsType

/-- `syn::Fields`. -/
inductive Fields where
  | named (fs : List Field)
  | unnamed (fs : List Field)
  | unit

/-- `syn::Variant` as consumed here: attributes, name, fields. -/
structure Variant where
  attrs : List Attr
  ident : String
  fields : Fields

/-- `syn::Data`. -/
inductive Data where
  | enum (variants : List Variant)
  | struct (fields : Fields)
  | union

/-- `syn::DeriveInput`, restricted to the components the code reads. -/
structure DeriveInput where
  ident : String
  attrs : List Attr
  data : Data

/-- `AstItem`: data extracted from syn source (a parsed declaration plus the
`#[cfg]` attributes that gate it). -/
structure AstItem where
  ast : DeriveInput
  features : List Attr

/-- `Lookup`: the node table, the token table (spelling → symbol) and the
alias table (re-exported name → canonical name). -/
structure Lookup where
  items : List (String × AstItem)
  tokens : List (String × String)
  aliases : List (String × String)

/-- `fields.iter()` over a `syn::Fields` value. -/
def Fields.fieldList : Fields → List Field
  | .named fs => fs
  | .unnamed fs => fs
  | .unit => []

/-- `is_pub`. -/
def isPub : Vis → Bool
  | .pub_ => true
  | _ => false

/-- `is_non_exhaustive`: some attribute has path `non_exhaustive`. -/
def isNonExhaustive (attrs : List Attr) : Bool :=
  attrs.any fun a => a matches .nonExhaustive

/-- `is_doc_hidden`: some attribute is `#[doc(hidden)]`. -/
def isDocHidden (attrs : List Attr) : Bool :=
  attrs.any fun a => a matches .docHidden

/-- The body of the `for` loop of `introspect_features`, for one `#[cfg]`
attribute: the accumulated predicate `ret` is merged with the newly parsed
predicate `fs`; a failed `assert!` is `none`. -/
def mergeFeatures (ret fs : Features) : Option Features :=
  if ret.any = ∅ then some fs
  else if ret.any.card < fs.any.card then
    if ret.any ⊆ fs.any then some ret else none
  else
    if fs.any ⊆ ret.any then some fs else none

/-- The loop of `introspect_features`: non-`cfg` attributes are skipped, each
`cfg` attribute's parsed predicate is merged into the accumulator (an
unparseable `cfg` is the `unwrap` panic). -/
def introspectFeaturesAux : Features → List Attr → Option Features
  | ret, [] => some ret
  | ret, .cfg fs :: rest =>
    match mergeFeatures ret fs with
    | some merged => introspectFeaturesAux merged rest
    | none => none
  | _, .cfgBad :: _ => none
  | ret, _ :: rest => introspectFeaturesAux ret rest

/-- `introspect_features`. -/
def introspectFeatures (attrs : List Attr) : Option Features :=
  introspectFeaturesAux ⟨∅⟩ attrs

/-- `first_arg`: the first generic argument, which must exist and be a type;
anything else is a panic (`none`). -/
def firstArg : Option (List (Option RsType)) → Option RsType
  | some (some t :: _) => some t
  | _ => none

/-- `last_arg`: the last generic argument, which must exist and be a type. -/
def lastArg : Option (List (Option RsType)) → Option RsType
  | some l =>
    match l.getLast? with
    | some (some t) => some t
    | _ => none
  | none => none

/-- The `while let Some(alias) = lookup.aliases.get(resolved)` loop of
`introspect_type`, with explicit fuel: substitute through the alias table
until the name has no entry; exhausted fuel (`none`) renders the
non-termination of the unbounded Rust loop. -/
def resolveAliases (al : List (String × String)) (fuel : Nat) (name : String) :
    Option String :=
  match alookup al name with
  | none => some name
  | some a =>
    match fuel with
    | 0 => none
    | f + 1 => resolveAliases al f a

/-- `introspect_type`.  Fuel bounds the structural recursion and the alias
loop; every panic (`first_arg`/`last_arg` failure, non-token separator,
unknown type name, unknown token spelling, unsupported type shape) is
`none`. -/
def introspectType (lk : Lookup) : Nat → RsType → Option SType
  | 0, _ => none
  | fuel + 1, ty =>
    match ty with
    | .path true _ _ => none
    | .path false name args =>
      if name = "Option" then
        match firstArg args with
        | none => none
        | some a => (introspectType lk fuel a).map SType.option
      else if name = "Punctuated" then
        match firstArg args with
        | none => none
        | some a =>
          match introspectType lk fuel a with
          | none => none
          | some nested =>
            match lastArg args with
            | none => none
            | some b =>
              match introspectType lk fuel b with
              | some (.token s) => some (.punctuated nested s)
              | some _ => none
              | none => none
      else if name = "Vec" then
        match firstArg args with
        | none => none
        | some a => (introspectType lk fuel a).map SType.vec
      else if name = "Box" then
        match firstArg args with
        | none => none
        | some a => (introspectType lk fuel a).map SType.box
      else if name = "Brace" ∨ name = "Bracket" ∨ name = "Paren" ∨ name = "Group" then
        some (.group name)
      else if name = "TokenStream" ∨ name = "Literal" ∨ name = "Ident" ∨ name = "Span" then
        some (.ext name)
      else if name = "String" ∨ name = "u32" ∨ name = "usize" ∨ name = "bool" then
        some (.std name)
      else
        match resolveAliases lk.aliases fuel name with
        | none => none
        | some r => if (alookup lk.items r).isSome then some (.syn r) else none
    | .tuple elems => (elems.mapM (introspectType lk fuel)).map SType.tuple
    | .macTy true content =>
      match alookup lk.tokens content with
      | some t => some (.token t)
      | none => none
    | .macTy false _ => none
    | .otherTy => none

/-- Modelled from the spec: `types::Data` of the `syn-codegen` crate — either
an ordered variant mapping, an ordered field mapping, or the opaque
private-struct marker. -/
inductive NodeData where
  | enumData (variants : List (String × List SType))
  | structData (fields : List (String × SType))
  | privateData

/-- Modelled from the spec: `types::Node` of the `syn-codegen` crate. -/
structure Node where
  ident : String
  features : Features
  data : NodeData
  exhaustive : Bool

/-- `introspect_enum`: variants marked `#[doc(hidden)]` are dropped; unnamed
fields are introspected positionally; unit variants get an empty payload;
named-field variants are a panic. -/
def introspectEnum (lk : Lookup) (fuel : Nat) :
    List Variant → Option (List (String × List SType))
  | [] => some []
  | v :: vs =>
    if isDocHidden v.attrs then introspectEnum lk fuel vs
    else
      match v.fields with
      | .unnamed fs =>
        match fs.mapM (fun f => introspectType lk fuel f.ty) with
        | none => none
        | some tys =>
          match introspectEnum lk fuel vs with
          | none => none
          | some rest => some ((v.ident, tys) :: rest)
      | .unit =>
        match introspectEnum lk fuel vs with
        | none => none
        | some rest => some ((v.ident, []) :: rest)
      | .named _ => none

/-- `introspect_struct`: named fields are mapped in declaration order to their
introspected types (a nameless named field is the `unwrap` panic); a unit
struct has an empty mapping; unnamed fields are a panic. -/
def introspectStruct (lk : Lookup) (fuel : Nat) : Fields → Option (List (String × SType))
  | .named fs =>
    fs.mapM fun f =>
      match f.ident with
      | none => none
      | some name =>
        match introspectType lk fuel f.ty with
        | none => none
        | some t => some (name, t)
  | .unit => some []
  | .unnamed _ => none

/-- `introspect_item`. -/
def introspectItem (lk : Lookup) (fuel : Nat) (item : AstItem) : Option Node :=
  match introspectFeatures item.features with
  | none => none
  | some features =>
    match item.ast.data with
    | .enum variants =>
      match introspectEnum lk fuel variants with
      | none => none
      | some vs =>
        some { ident := item.ast.ident
               features := features
               data := .enumData vs
               exhaustive := !(isNonExhaustive item.ast.attrs
                 || variants.any fun v => isDocHidden v.attrs) }
    | .struct fields =>
      if fields.fieldList.all fun f => isPub f.vis then
        match introspectStruct lk fuel fields with
        | none => none
        | some fs =>
          some { ident := item.ast.ident
                 features := features
                 data := .structData fs
                 exhaustive := true }
      else
        some { ident := item.ast.ident
               features := features
               data := .privateData
               exhaustive := true }
    | .union => none

/-- Modelled from the spec (claim comparison definition, not from the code):
the spec's description of name resolution — "repeatedly substituting through
the alias table until reaching a name present in the node table", emitting
that name; failure to ever reach a node-table name is a violation (`none`).
-/
def claimResolve (lk : Lookup) (fuel : Nat) (name : String) : Option String :=
  if (alookup lk.items name).isSome then some name
  else
    match alookup lk.aliases name with
    | some a =>
      match fuel with
      | 0 => none
      | f + 1 => claimResolve lk f a
    | none => none

/-- One variant entry of an `ast_enum_of_structs!` invocation (`EosVariant`):
attributes, name, and the optional parenthesized path naming the wrapped
node type (modelled by its single segment, the only one introspection
reads). -/
structure EosVariant where
  attrs : List Attr
  name : String
  member : Option String

/-- The per-variant reconstruction done by `ast_enum_of_structs`: the quoted
`#(#attrs)* #name(#member)` (resp. `#(#attrs)* #name`) parses back to a
variant with one unnamed inherited-visibility field of the member's path
type (resp. a unit variant). -/
def eosVariantToVariant (v : EosVariant) : Variant :=
  { attrs := v.attrs
    ident := v.name
    fields :=
      match v.member with
      | some p => .unnamed [⟨.inherited, none, .path false p none⟩]
      | none => .unit }

/-- `ast_enum_of_structs`: reconstructs a tagged enum declaration from the
brace-delimited variant entries; features start empty. -/
def astEnumOfStructs (attrs : List Attr) (ident : String)
    (variants : List EosVariant) : AstItem :=
  ⟨⟨ident, attrs, .enum (variants.map eosVariantToVariant)⟩, []⟩

/-- A variant of a directly declared tagged enum, written `Name(Path)` or
`Name`: what `syn`'s enum parser produces for those tokens. -/
def taggedVariant (attrs : List Attr) (name : String) (member : Option String) :
    Variant :=
  { attrs := attrs
    ident := name
    fields :=
      match member with
      | some p => .unnamed [⟨.inherited, none, .path false p none⟩]
      | none => .unit }

/-- `ast_enum`: the declared enum is kept as written; `#no_visit` drops the
item entirely; features start empty. -/
def astEnum (attrs : List Attr) (ident : String) (noVisit : Bool)
    (variants : List Variant) : Option AstItem :=
  if noVisit then none else some ⟨⟨ident, attrs, .enum variants⟩, []⟩

/-- `parse_token_macro`: folds the `[spelling] => { $Path };` entries (here
already split into spelling and last path segment) into the spelling→symbol
map. -/
def parseTokenMacro (entries : List (String × String)) : List (String × String) :=
  entries.foldl (fun m e => btInsert m e.1 e.2) []

/-- The token-table inversion in `parse`:
`tokens.into_iter().map(|(name, ty)| (ty, name)).collect()`. -/
def invertTokens (tokens : List (String × String)) : List (String × String) :=
  tokens.foldl (fun m e => btInsert m e.2 e.1) []

/-- One step of the alias chain: follow the alias entry if present, stay put
otherwise (terminal names are fixed points). -/
def aliasStep (al : List (String × String)) (n : String) : String :=
  (alookup al n).getD n

/-- No cycle of the alias table is reachable from `n`: no name reachable from
`n` that still has an alias entry is periodic under `aliasStep`. -/
def NoCycleFrom (al : List (String × String)) (n : String) : Prop :=
  ∀ j k, 0 < k → (alookup al ((aliasStep al)^[j] n)).isSome →
    (aliasStep al)^[k] ((aliasStep al)^[j] n) ≠ (aliasStep al)^[j] n

/-- A source position as reported by the tokenizer layer (`proc-macro2`
`LineColumn`): `line` is 1-based, `column` is 0-based. -/
structure Span where
  line : Nat
  column : Nat
  deriving DecidableEq

/-- A recognized macro invocation: which of the three declaration forms it is
and the already-recognized declaration (the enum form is `none` under
`#no_visit`).  Macro bodies are modelled as recognized, matching the
spec's assumption that the crawled library is well-formed by
construction. -/
inductive MacItem where
  | astStructM (it : AstItem)
  | astEnumM (it : Option AstItem)
  | astEnumOfStructsM (it : AstItem)
  | otherMac

/-- `syn::UseTree`. -/
inductive UseTree where
  | pathT (tree : UseTree)
  | rename (ident renamed : String)
  | group (items : List UseTree)
  | nameT
  | glob

/-- An item of a crawled file, restricted to the shapes `do_load_file`
distinguishes. -/
inductive RsItem where
  | modItem (attrs : List Attr) (ident : String) (inline : Bool)
  | macItem (attrs : List Attr) (mac : MacItem)
  | structItem (attrs : List Attr) (ident : String) (fields : Fields)
  | useItem (visPub : Bool) (tree : UseTree)
  | otherItem

/-- The result of `syn::parse_file` on one source file: either a syntax error
at the position of the first offending token, or the item list. -/
inductive SrcFile where
  | parseFailure (sp : Span)
  | parsed (items : List RsItem)

/-- The error surfaced by the crawl: a `LoadFileError` (path plus 1-based
line/column), an I/O failure (which the code propagates without position
information), or exhausted fuel rendering non-termination of the unbounded
module recursion. -/
inductive LoadError where
  | parseErr (path : List String) (line : Nat) (column : Nat)
  | ioErr
  | fuelOut
  deriving DecidableEq

def SYN_CRATE_ROOT : List String := ["src", "lib.rs"]

def IGNORED_MODS : List String := ["fold", "visit", "visit_mut"]

def EXTRA_TYPES : List String := ["Lifetime"]

/-- Whether an attribute has path `cfg` (parsed or not). -/
def isCfgAttr : Attr → Bool
  | .cfg _ => true
  | .cfgBad => true
  | _ => false

/-- `get_features`: the inherited attributes followed by the declaration's
own `#[cfg]` attributes (`clone_features` is the identity here). -/
def getFeatures (attrs base : List Attr) : List Attr :=
  base ++ attrs.filter isCfgAttr

/-- `parsing::path_attr`: the filename of the first `#[path = "..."]`
attribute. -/
def pathAttr : List Attr → Option String
  | [] => none
  | .pathA f :: _ => some f
  | _ :: rest => pathAttr rest

mutual

/-- `load_aliases`: record `rename → ident` pairs from a use tree. -/
def loadAliases (t : UseTree) (al : List (String × String)) :
    List (String × String) :=
  match t with
  | .pathT tree => loadAliases tree al
  | .rename ident renamed => btInsert al renamed ident
  | .group items => loadAliasesList items al
  | .nameT => al
  | .glob => al

/-- `load_aliases` over the items of a use group, in order. -/
def loadAliasesList (ts : List UseTree) (al : List (String × String)) :
    List (String × String) :=
  match ts with
  | [] => al
  | t :: rest => loadAliasesList rest (loadAliases t al)

end

/-- The `found` computation in the macro arm of `do_load_file`: which of the
three recognized declaration forms, if any, produced an item. -/
def recognizedItem : MacItem → Option AstItem
  | .astStructM it => some it
  | .astEnumM it => it
  | .astEnumOfStructsM it => some it
  | .otherMac => none

/-- The item loop of `do_load_file`, parameterized by the recursive file
loader used for submodules. -/
def processItems
    (loadSub : List String → List Attr → Lookup → Except LoadError Lookup)
    (path : List String) (features : List Attr) :
    List RsItem → Lookup → Except LoadError Lookup
  | [], lk => .ok lk
  | it :: rest, lk =>
    match it with
    | .modItem attrs ident inline =>
      if inline then processItems loadSub path features rest lk
      else if ident ∈ IGNORED_MODS then processItems loadSub path features rest lk
      else
        match loadSub
            (path.dropLast ++
              [match pathAttr attrs with
               | some f => f
               | none => ident ++ ".rs"])
            (if ident = "derive" then [Attr.cfg ⟨{"derive"}⟩]
             else getFeatures attrs features) lk with
        | .error e => .error e
        | .ok lk' => processItems loadSub path features rest lk'
    | .macItem attrs mac =>
      match recognizedItem mac with
      | none => processItems loadSub path features rest lk
      | some item =>
        processItems loadSub path features rest
          ⟨btInsert lk.items item.ast.ident
              ⟨item.ast, item.features ++ getFeatures attrs features⟩,
            lk.tokens, lk.aliases⟩
    | .structItem attrs ident fields =>
      if ident ∈ EXTRA_TYPES then
        processItems loadSub path features rest
          { lk with items := btInsert lk.items ident ⟨⟨ident, attrs, .struct fields⟩, features⟩ }
      else processItems loadSub path features rest lk
    | .useItem visPub tree =>
      if path = SYN_CRATE_ROOT ∧ visPub then
        processItems loadSub path features rest
          { lk with aliases := loadAliases tree lk.aliases }
      else processItems loadSub path features rest lk
    | .otherItem => processItems loadSub path features rest lk

/-- `load_file` / `do_load_file` over a modelled file system: a file-level
syntax error is wrapped with the current path and 1-based line/column
(`span.line` is already 1-based, `span.column + 1` converts the 0-based
column); an error coming out of a submodule crawl is propagated unchanged
(the `downcast` in `load_file` fails on an already-wrapped error and
re-propagates it as is). -/
def loadFile (fs : List String → Option SrcFile) :
    Nat → List String → List Attr → Lookup → Except LoadError Lookup
  | 0, _, _, _ => .error .fuelOut
  | fuel + 1, path, features, lk =>
    match fs path with
    | none => .error .ioErr
    | some (.parseFailure sp) => .error (.parseErr path sp.line (sp.column + 1))
    | some (.parsed items) =>
      processItems (fun p f l => loadFile fs fuel p f l) path features items lk

/-! ## Theorems -/

/-- Helper: merging exactly two parsed `#[cfg]` predicates reduces to one
`mergeFeatures` step (the first merge into the empty accumulator just adopts
`P`). -/
theorem introspectFeatures_pair (P Q : Features) :
    introspectFeatures [Attr.cfg P, Attr.cfg Q] = mergeFeatures P Q := by
  unfold introspectFeatures introspectFeaturesAux
  have h0 : mergeFeatures ⟨∅⟩ P = some P := by
    unfold mergeFeatures
    simp
  rw [h0]
  cases h : mergeFeatures P Q <;> simp [introspectFeaturesAux, h]

/-- C1 counterexample: the claim says the empty predicate is absorbed by any
non-empty one, so merging inherited `{full}` with declared `∅` should give
`{full}`; the code instead replaces the accumulator with the empty declared
predicate and yields `∅`. -/
theorem C1_counterexample :
    introspectFeatures [Attr.cfg ⟨{"full"}⟩, Attr.cfg ⟨∅⟩] = some ⟨∅⟩ ∧
      (⟨∅⟩ : Features) ≠ ⟨{"full"}⟩ := by
  refine ⟨by decide, by decide⟩

/-- C1 (amended): merging the inherited predicate `P` followed by the
declared predicate `Q` obeys: if `P` is empty the result is `Q`; if
`Q ⊆ P` (in particular whenever `Q` is empty) the result is `Q`; if `P` is
non-empty and `P ⊆ Q` the result is `P`; and if the two predicates are
neither subset-related nor equal, the merge is an invariant violation that
aborts the run.  (The only change from the claim as stated: an empty
declared predicate is not absorbed — it replaces the non-empty inherited
one, the result being the empty predicate.) -/
theorem C1_feature_merge (P Q : Features) :
    (P.any = ∅ → introspectFeatures [Attr.cfg P, Attr.cfg Q] = some Q) ∧
    (Q.any ⊆ P.any → introspectFeatures [Attr.cfg P, Attr.cfg Q] = some Q) ∧
    (P.any ≠ ∅ → P.any ⊆ Q.any →
      introspectFeatures [Attr.cfg P, Attr.cfg Q] = some P) ∧
    (¬ Q.any ⊆ P.any → ¬ P.any ⊆ Q.any →
      introspectFeatures [Attr.cfg P, Attr.cfg Q] = none) := by
  obtain ⟨p⟩ := P
  obtain ⟨q⟩ := Q
  rw [introspectFeatures_pair]
  unfold mergeFeatures
  refine ⟨?_, ?_, ?_, ?_⟩
  · intro hp
    have hp' : p = ∅ := hp
    subst hp'
    simp
  · intro hqp
    by_cases hp : p = ∅
    · simp [hp]
    · have hcard : ¬ p.card < q.card := by
        exact Nat.not_lt.mpr (Finset.card_le_card hqp)
      simp only [hp, if_false, hcard, hqp, if_true]
  · intro hp hpq
    by_cases hcard : p.card < q.card
    · simp only [hp, if_false, hcard, if_true, hpq]
    · have hqp : q = p :=
        (Finset.eq_of_subset_of_card_le hpq (Nat.not_lt.mp hcard)).symm
      subst hqp
      simp
  · intro hqp hpq
    have hp : p ≠ ∅ := by
      intro h
      exact hpq (h ▸ Finset.empty_subset q)
    by_cases hcard : p.card < q.card <;>
      simp only [hp, if_false, hcard, if_true, hpq, hqp]

/-- C1 witness: the strict-superset direction on a concrete pair — inherited
`{full, derive}` merged with declared `{derive}` keeps the smaller
`{derive}`. -/
theorem C1_feature_merge_witness :
    introspectFeatures [Attr.cfg ⟨{"full", "derive"}⟩, Attr.cfg ⟨{"derive"}⟩] =
      some ⟨{"derive"}⟩ :=
  (C1_feature_merge ⟨{"full", "derive"}⟩ ⟨{"derive"}⟩).2.1 (by decide)

/-- An empty lookup state, as at the start of a run. -/
def emptyLookup : Lookup := ⟨[], [], []⟩

/-- C2 counterexample: a struct-shaped declaration carrying the explicit
`non_exhaustive` marker attribute (reachable through the `EXTRA_TYPES`
plain-struct path, which keeps the declaration's attributes) still gets
`exhaustive = true`; the claim requires `false` whenever the declaring
entity carries the marker. -/
theorem C2_counterexample :
    (introspectItem emptyLookup 1
        ⟨⟨"Lifetime", [.nonExhaustive], .struct .unit⟩, []⟩).map Node.exhaustive
      = some true ∧
    isNonExhaustive [Attr.nonExhaustive] = true :=
  ⟨rfl, rfl⟩

/-- C2 (amended): for every Node produced, the exhaustiveness flag of an
enum-shaped node is false exactly when the declaring enum carries the
`non_exhaustive` marker or any variant is marked `doc(hidden)`; a
struct-shaped node (public or private) always has the flag true — the
`non_exhaustive` marker is not consulted for structs. -/
theorem C2_exhaustive (lk : Lookup) (fuel : Nat) (item : AstItem) (node : Node)
    (h : introspectItem lk fuel item = some node) :
    (∀ variants, item.ast.data = .enum variants →
      node.exhaustive = !(isNonExhaustive item.ast.attrs
        || variants.any fun v => isDocHidden v.attrs)) ∧
    (∀ fields, item.ast.data = .struct fields → node.exhaustive = true) := by
  unfold introspectItem at h
  cases hF : introspectFeatures item.features with
  | none => rw [hF] at h; exact absurd h (by simp)
  | some F =>
    simp only [hF] at h
    constructor
    · intro variants hv
      simp only [hv] at h
      cases hE : introspectEnum lk fuel variants with
      | none => simp only [hE] at h; exact Option.noConfusion h
      | some vs =>
        simp only [hE, Option.some.injEq] at h
        rw [← h]
    · intro fields hv
      simp only [hv] at h
      by_cases hpub : (fields.fieldList.all fun f => isPub f.vis) = true
      · simp only [hpub, if_true] at h
        cases hS : introspectStruct lk fuel fields with
        | none => simp only [hS] at h; exact Option.noConfusion h
        | some fs =>
          simp only [hS, Option.some.injEq] at h
          rw [← h]
      · rw [if_neg hpub] at h
        simp only [Option.some.injEq] at h
        rw [← h]

/-- C2 witness: a concrete enum carrying `non_exhaustive` produces the flag
`false` as the amended rule computes it. -/
theorem C2_exhaustive_witness :
    ({ ident := "E", features := ⟨∅⟩, data := .enumData [],
       exhaustive := false } : Node).exhaustive
      = !(isNonExhaustive [Attr.nonExhaustive]
          || ([] : List Variant).any fun v => isDocHidden v.attrs) :=
  (C2_exhaustive emptyLookup 1 ⟨⟨"E", [.nonExhaustive], .enum []⟩, []⟩ _ rfl).1 [] rfl

/-- Helper: the keys of a successfully introspected variant mapping are
exactly the idents of the non-hidden variants, in declaration order. -/
theorem introspectEnum_keys (lk : Lookup) (fuel : Nat) :
    ∀ (variants : List Variant) (vs : List (String × List SType)),
      introspectEnum lk fuel variants = some vs →
      vs.map Prod.fst =
        (variants.filter fun v => !isDocHidden v.attrs).map Variant.ident := by
  intro variants
  induction variants with
  | nil =>
    intro vs h
    simp only [introspectEnum, Option.some.injEq] at h
    simp [← h]
  | cons v rest ih =>
    intro vs h
    unfold introspectEnum at h
    by_cases hh : isDocHidden v.attrs = true
    · rw [if_pos hh] at h
      rw [List.filter_cons_of_neg (by simp [hh])]
      exact ih vs h
    · rw [if_neg hh] at h
      rw [List.filter_cons_of_pos (by simp [hh])]
      cases hf : v.fields with
      | unnamed fs =>
        simp only [hf] at h
        cases hm : fs.mapM fun f => introspectType lk fuel f.ty with
        | none => simp only [hm] at h; exact Option.noConfusion h
        | some tys =>
          simp only [hm] at h
          cases hr : introspectEnum lk fuel rest with
          | none => simp only [hr] at h; exact Option.noConfusion h
          | some rest' =>
            simp only [hr, Option.some.injEq] at h
            rw [← h]
            simp [ih rest' hr]
      | unit =>
        simp only [hf] at h
        cases hr : introspectEnum lk fuel rest with
        | none => simp only [hr] at h; exact Option.noConfusion h
        | some rest' =>
          simp only [hr, Option.some.injEq] at h
          rw [← h]
          simp [ih rest' hr]
      | named fs => simp only [hf] at h; exact Option.noConfusion h

/-- C5: for every enum declaration, each variant marked `doc(hidden)` is
dropped entirely from the resulting Node's variant mapping — the mapping's
keys are exactly the non-hidden variants' names in order — and the Node is
non-exhaustive exactly when the enum carries the `non_exhaustive` marker or
any variant (including the dropped ones) is marked hidden. -/
theorem C5_hidden_variants (lk : Lookup) (fuel : Nat) (item : AstItem)
    (variants : List Variant) (node : Node)
    (hd : item.ast.data = .enum variants)
    (h : introspectItem lk fuel item = some node) :
    ∃ vs, node.data = .enumData vs ∧
      vs.map Prod.fst =
        (variants.filter fun v => !isDocHidden v.attrs).map Variant.ident ∧
      node.exhaustive = !(isNonExhaustive item.ast.attrs
        || variants.any fun v => isDocHidden v.attrs) := by
  unfold introspectItem at h
  cases hF : introspectFeatures item.features with
  | none => rw [hF] at h; exact absurd h (by simp)
  | some F =>
    simp only [hF, hd] at h
    cases hE : introspectEnum lk fuel variants with
    | none => simp only [hE] at h; exact Option.noConfusion h
    | some vs =>
      simp only [hE, Option.some.injEq] at h
      exact ⟨vs, by rw [← h], introspectEnum_keys lk fuel variants vs hE, by rw [← h]⟩

/-- C5 witness: an enum with a hidden variant `H` and a visible variant `V`
yields a mapping containing only `V`, and the node is non-exhaustive. -/
theorem C5_hidden_variants_witness :
    ∃ vs, ({ ident := "E", features := ⟨∅⟩, data := .enumData [("V", [])],
             exhaustive := false } : Node).data = .enumData vs ∧
      vs.map Prod.fst =
        (([⟨[.docHidden], "H", .unit⟩, ⟨[], "V", .unit⟩] : List Variant).filter
          fun v => !isDocHidden v.attrs).map Variant.ident ∧
      ({ ident := "E", features := ⟨∅⟩, data := .enumData [("V", [])],
         exhaustive := false } : Node).exhaustive
        = !(isNonExhaustive []
            || ([⟨[.docHidden], "H", .unit⟩, ⟨[], "V", .unit⟩] : List Variant).any
                fun v => isDocHidden v.attrs) :=
  C5_hidden_variants emptyLookup 1
    ⟨⟨"E", [], .enum [⟨[.docHidden], "H", .unit⟩, ⟨[], "V", .unit⟩]⟩, []⟩
    [⟨[.docHidden], "H", .unit⟩, ⟨[], "V", .unit⟩] _ rfl rfl

/-- C6 counterexample: a tuple struct whose single unnamed field is public
has all fields publicly visible, yet no Node results — `introspect_struct`
panics on unnamed fields ("Struct representation not supported") — where the
claim promises a Node whose data is a one-entry field mapping. -/
theorem C6_counterexample :
    introspectItem emptyLookup 1
        ⟨⟨"T", [], .struct (.unnamed [⟨.pub_, none, .path false "bool" none⟩])⟩, []⟩
      = none ∧
    ((Fields.unnamed [⟨.pub_, none, .path false "bool" none⟩]).fieldList.all
      fun f => isPub f.vis) = true :=
  ⟨rfl, rfl⟩

/-- Helper: a successful `introspect_struct` on named fields produces one
entry per declared field, in declaration order, pairing each field's name
with its introspected type. -/
theorem introspectStruct_forall2 (lk : Lookup) (fuel : Nat) :
    ∀ (fs : List Field) (l : List (String × SType)),
      introspectStruct lk fuel (.named fs) = some l →
      List.Forall₂ (fun (f : Field) (p : String × SType) =>
        f.ident = some p.1 ∧ introspectType lk fuel f.ty = some p.2) fs l := by
  intro fs
  induction fs with
  | nil =>
    intro l h
    simp only [introspectStruct, List.mapM_nil, pure, Option.some.injEq] at h
    rw [← h]
    exact List.Forall₂.nil
  | cons f rest ih =>
    intro l h
    simp only [introspectStruct, List.mapM_cons] at h
    cases hi : f.ident with
    | none => simp only [hi] at h; exact Option.noConfusion h
    | some name =>
      simp only [hi] at h
      cases ht : introspectType lk fuel f.ty with
      | none => simp only [ht] at h; exact Option.noConfusion h
      | some t =>
        simp only [ht, Option.bind_eq_bind, Option.some_bind] at h
        cases hr : rest.mapM fun f => match f.ident with
            | none => none
            | some name =>
              match introspectType lk fuel f.ty with
              | none => none
              | some t => some (name, t) with
        | none => rw [hr] at h; exact Option.noConfusion h
        | some rest' =>
          rw [hr] at h
          simp only [Option.some_bind, pure, Option.some.injEq] at h
          rw [← h]
          exact List.Forall₂.cons ⟨hi, ht⟩ (ih rest' (by simp only [introspectStruct]; exact hr))

/-- C6 (amended): for every recognized struct declaration whose fields are
named (or absent), all-public fields yield a Node with a field mapping having
exactly one entry per declared field in declaration order, each mapped to the
introspected Type of the field; a struct with any non-public field is still
recorded, but as opaque `Private` data.  (The only change from the claim as
stated: an all-public *tuple* struct — unnamed fields — is not given a field
mapping; it aborts the run as an unsupported representation, as the
counterexample shows.) -/
theorem C6_struct_fields (lk : Lookup) (fuel : Nat) (item : AstItem) (node : Node)
    (h : introspectItem lk fuel item = some node) :
    (∀ fs, item.ast.data = .struct (.named fs) →
      (fs.all fun f => isPub f.vis) = true →
      ∃ l, node.data = .structData l ∧
        List.Forall₂ (fun (f : Field) (p : String × SType) =>
          f.ident = some p.1 ∧ introspectType lk fuel f.ty = some p.2) fs l) ∧
    (∀ fields, item.ast.data = .struct fields →
      ¬ (fields.fieldList.all fun f => isPub f.vis) = true →
      node.data = .privateData ∧ node.exhaustive = true) ∧
    (item.ast.data = .struct .unit → node.data = .structData []) := by
  unfold introspectItem at h
  cases hF : introspectFeatures item.features with
  | none => rw [hF] at h; exact absurd h (by simp)
  | some F =>
    simp only [hF] at h
    refine ⟨?_, ?_, ?_⟩
    · intro fs hv hpub
      simp only [hv] at h
      rw [if_pos (by simpa [Fields.fieldList] using hpub)] at h
      cases hS : introspectStruct lk fuel (.named fs) with
      | none => simp only [hS] at h; exact Option.noConfusion h
      | some l =>
        simp only [hS, Option.some.injEq] at h
        exact ⟨l, by rw [← h], introspectStruct_forall2 lk fuel fs l hS⟩
    · intro fields hv hpub
      simp only [hv] at h
      rw [if_neg hpub] at h
      simp only [Option.some.injEq] at h
      rw [← h]
      exact ⟨rfl, rfl⟩
    · intro hv
      simp only [hv] at h
      rw [if_pos (by simp [Fields.fieldList])] at h
      have hS : introspectStruct lk fuel .unit = some [] := rfl
      simp only [hS, Option.some.injEq] at h
      rw [← h]

/-- C6 witness: the spec's own end-to-end example — `pub struct Ident
{ pub sym: Symbol-like ext, pub span: Span }` restricted to the field
mapping: both fields public, mapping in declaration order. -/
theorem C6_struct_fields_witness :
    ∃ l, ({ ident := "Ident", features := ⟨∅⟩,
            data := .structData [("sym", .ext "Span"), ("span", .ext "Span")],
            exhaustive := true } : Node).data = .structData l ∧
      List.Forall₂ (fun (f : Field) (p : String × SType) =>
        f.ident = some p.1 ∧ introspectType emptyLookup 1 f.ty = some p.2)
        [⟨.pub_, some "sym", .path false "Span" none⟩,
         ⟨.pub_, some "span", .path false "Span" none⟩] l :=
  (C6_struct_fields emptyLookup 1
    ⟨⟨"Ident", [],
      .struct (.named [⟨.pub_, some "sym", .path false "Span" none⟩,
                       ⟨.pub_, some "span", .path false "Span" none⟩])⟩, []⟩
    _ rfl).1 _ rfl rfl

/-- C7: the tagged-enum recognizer path and the enum-of-wrapped-structs
recognizer path, fed logically equivalent declarations (identical variant
names, attributes and payload type paths), produce the same recognized item
and hence the same introspected Node (same variant-name→payload-type-list
mapping). -/
theorem C7_enum_paths (lk : Lookup) (fuel : Nat) (attrs : List Attr)
    (ident : String) (vs : List EosVariant) (item : AstItem)
    (h : astEnum attrs ident false
        (vs.map fun v => taggedVariant v.attrs v.name v.member) = some item) :
    introspectItem lk fuel item
      = introspectItem lk fuel (astEnumOfStructs attrs ident vs) := by
  have hmap : (vs.map fun v => taggedVariant v.attrs v.name v.member)
      = vs.map eosVariantToVariant := by
    apply List.map_congr_left
    intro v _
    obtain ⟨a, n, m⟩ := v
    cases m <;> rfl
  unfold astEnum at h
  rw [if_neg (by simp)] at h
  simp only [Option.some.injEq] at h
  rw [← h, hmap]
  rfl

/-- C7 witness: a concrete two-variant declaration (`Lit(ExprLit)` and a
unit variant) recognized through both paths yields the same Node. -/
theorem C7_enum_paths_witness :
    introspectItem emptyLookup 1
        ⟨⟨"Pat", [],
          .enum [taggedVariant [] "Lit" (some "ExprLit"),
                 taggedVariant [] "Rest" none]⟩, []⟩
      = introspectItem emptyLookup 1
          (astEnumOfStructs [] "Pat"
            [⟨[], "Lit", some "ExprLit"⟩, ⟨[], "Rest", none⟩]) :=
  C7_enum_paths emptyLookup 1 [] "Pat"
    [⟨[], "Lit", some "ExprLit"⟩, ⟨[], "Rest", none⟩] _ rfl

/-- C8: for a `Punctuated<_, _>` type expression, the introspector yields
`Punctuated{element, separator}` where `element` is the introspection of the
first generic argument and `separator` is the symbolic token kind the last
generic argument resolves to; if the last generic argument resolves to
anything other than a symbolic token leaf, the run aborts. -/
theorem C8_punctuated (lk : Lookup) (fuel : Nat)
    (args : Option (List (Option RsType))) (a b : RsType) (el : SType)
    (s : String) (t : SType)
    (hfa : firstArg args = some a) (hla : lastArg args = some b) :
    (introspectType lk fuel a = some el →
      introspectType lk fuel b = some (.token s) →
      introspectType lk (fuel + 1) (.path false "Punctuated" args)
        = some (.punctuated el s)) ∧
    (introspectType lk fuel a = some el →
      introspectType lk fuel b = some t → (∀ u, t ≠ .token u) →
      introspectType lk (fuel + 1) (.path false "Punctuated" args) = none) := by
  constructor
  · intro h1 h2
    simp only [introspectType, hfa, h1, hla, h2]
    rfl
  · intro h1 h2 ht
    cases t with
    | token u => exact absurd rfl (ht u)
    | syn n => simp only [introspectType, hfa, h1, hla, h2]; rfl
    | option x => simp only [introspectType, hfa, h1, hla, h2]; rfl
    | box x => simp only [introspectType, hfa, h1, hla, h2]; rfl
    | vec x => simp only [introspectType, hfa, h1, hla, h2]; rfl
    | punctuated x p => simp only [introspectType, hfa, h1, hla, h2]; rfl
    | group n => simp only [introspectType, hfa, h1, hla, h2]; rfl
    | ext n => simp only [introspectType, hfa, h1, hla, h2]; rfl
    | std n => simp only [introspectType, hfa, h1, hla, h2]; rfl
    | tuple es => simp only [introspectType, hfa, h1, hla, h2]; rfl

/-- C8 witness: the spec's example — `Punctuated<FieldValue, Token![,]>`
with `,` mapping to symbolic kind `Comma` and `FieldValue` in the node
table yields `Punctuated{element: NodeRef(FieldValue), separator: Comma}`. -/
theorem C8_punctuated_witness :
    introspectType
        ⟨[("FieldValue", ⟨⟨"FieldValue", [], .struct .unit⟩, []⟩)],
         [(",", "Comma")], []⟩ 2
        (.path false "Punctuated"
          (some [some (.path false "FieldValue" none), some (.macTy true ",")]))
      = some (.punctuated (.syn "FieldValue") "Comma") :=
  (C8_punctuated
    ⟨[("FieldValue", ⟨⟨"FieldValue", [], .struct .unit⟩, []⟩)],
     [(",", "Comma")], []⟩ 1
    (some [some (.path false "FieldValue" none), some (.macTy true ",")])
    (.path false "FieldValue" none) (.macTy true ",")
    (.syn "FieldValue") "Comma" (.syn "x") rfl rfl).1 rfl rfl

/-- A lookup state with node `B` in the node table and alias chain
`A → B → C`: the name `B` is simultaneously an alias key and a node-table
key. -/
def lkChainB : Lookup :=
  ⟨[("B", ⟨⟨"B", [], .struct .unit⟩, []⟩)], [], [("A", "B"), ("B", "C")]⟩

/-- C4 counterexample: with alias chain `A → B → C` and `B` (but not `C`) in
the node table, the claim's resolution rule — substitute until reaching a
name present in the node table — stops at `B` and emits `NodeRef(B)`, but
the code substitutes past `B` to the chain end `C`, finds `C` absent from
the node table, and aborts (`unimplemented!`). -/
theorem C4_counterexample :
    introspectType lkChainB 9 (.path false "A" none) = none ∧
    claimResolve lkChainB 9 "A" = some "B" ∧
    (none : Option SType) ≠ some (.syn "B") :=
  ⟨rfl, rfl, nofun⟩

/-- Helper: a successful alias resolution ends at a name with no alias
entry. -/
theorem resolveAliases_terminal (al : List (String × String)) :
    ∀ (fuel : Nat) (n r : String), resolveAliases al fuel n = some r →
      alookup al r = none := by
  intro fuel
  induction fuel with
  | zero =>
    intro n r h
    unfold resolveAliases at h
    cases hl : alookup al n with
    | none => rw [hl] at h; simp only [Option.some.injEq] at h; rw [← h]; exact hl
    | some a => rw [hl] at h; exact Option.noConfusion h
  | succ f ih =>
    intro n r h
    unfold resolveAliases at h
    cases hl : alookup al n with
    | none => rw [hl] at h; simp only [Option.some.injEq] at h; rw [← h]; exact hl
    | some a => rw [hl] at h; exact ih a r h

/-- C4 (amended): for a single-segment field type name matching none of the
fixed wrapper, delimiter-group, opaque-leaf, or primitive-leaf name tables,
the introspector substitutes through the alias table until reaching a name
with *no alias entry*, and emits a node reference to that final name if it is
present in the node table; if the final name is absent from the node table,
the run aborts as an unrecoverable invariant violation.  (Changed from the
claim's "until reaching a name present in the node table": node-table
membership of intermediate chain names is never consulted, as the
counterexample shows; for a chain `A → B → C` this yields `NodeRef(C)`
whenever `C` is in the node table.) -/
theorem C4_alias_resolution (lk : Lookup) (fuel : Nat) (name : String)
    (args : Option (List (Option RsType))) (r : String)
    (hname : name ∉ ["Option", "Punctuated", "Vec", "Box", "Brace", "Bracket",
      "Paren", "Group", "TokenStream", "Literal", "Ident", "Span", "String",
      "u32", "usize", "bool"])
    (hres : resolveAliases lk.aliases fuel name = some r) :
    alookup lk.aliases r = none ∧
    introspectType lk (fuel + 1) (.path false name args)
      = if (alookup lk.items r).isSome then some (.syn r) else none := by
  simp only [List.mem_cons, List.not_mem_nil, or_false, not_or] at hname
  obtain ⟨h1, h2, h3, h4, h5, h6, h7, h8, h9, h10, h11, h12, h13, h14, h15, h16⟩ := hname
  refine ⟨resolveAliases_terminal lk.aliases fuel name r hres, ?_⟩
  show (if name = "Option" then _ else _) = _
  rw [if_neg h1, if_neg h2, if_neg h3, if_neg h4,
    if_neg (by simp [h5, h6, h7, h8]), if_neg (by simp [h9, h10, h11, h12]),
    if_neg (by simp [h13, h14, h15, h16]), hres]

/-- A lookup state with node `C` in the node table and alias chain
`A → B → C`. -/
def lkChainC : Lookup :=
  ⟨[("C", ⟨⟨"C", [], .struct .unit⟩, []⟩)], [], [("A", "B"), ("B", "C")]⟩

/-- C4 witness: the claim's own example — alias chain `A → B → C` with `C`
present in the node table resolves a field of type name `A` to `C` (and `C`
has no further alias entry). -/
theorem C4_alias_resolution_witness :
    alookup lkChainC.aliases "C" = none ∧
    introspectType lkChainC 3 (.path false "A" none)
      = if (alookup lkChainC.items "C").isSome then some (.syn "C") else none :=
  C4_alias_resolution lkChainC 2 "A" none "C" (by decide) rfl

/-- C3 counterexample: a loadable token table in which two spellings map to
the same symbol (`[+] => Plus; [-] => Plus;` is accepted by the loader);
inverting it keeps only one entry per symbol key, so the entry
`("+", "Plus")` is lost — the inverted table maps `Plus` back to `-`, not
`+`. -/
theorem C3_counterexample :
    parseTokenMacro [("+", "Plus"), ("-", "Plus")] = [("+", "Plus"), ("-", "Plus")] ∧
    invertTokens [("+", "Plus"), ("-", "Plus")] = [("Plus", "-")] ∧
    ("+", "Plus") ∈ parseTokenMacro [("+", "Plus"), ("-", "Plus")] ∧
    alookup (invertTokens [("+", "Plus"), ("-", "Plus")]) "Plus" ≠ some "+" :=
  ⟨rfl, rfl, by decide, by decide⟩

/-- Helper: looking up the key just inserted returns the inserted value. -/
theorem alookup_btInsert_self {α : Type} (acc : List (String × α)) (k : String)
    (v : α) : alookup (btInsert acc k v) k = some v := by
  induction acc with
  | nil => simp [btInsert, alookup]
  | cons p rest ih =>
    obtain ⟨k', v'⟩ := p
    by_cases hkk : k = k'
    · simp [btInsert, hkk, alookup]
    · simp only [btInsert, if_neg hkk]
      simp only [alookup, if_neg hkk]
      exact ih

/-- Helper: inserting under a different key leaves a lookup unchanged. -/
theorem alookup_btInsert_other {α : Type} (acc : List (String × α))
    (k k'' : String) (v : α) (hne : k'' ≠ k) :
    alookup (btInsert acc k v) k'' = alookup acc k'' := by
  induction acc with
  | nil => simp [btInsert, alookup, hne]
  | cons p rest ih =>
    obtain ⟨k', v'⟩ := p
    by_cases hkk : k = k'
    · subst hkk
      simp [btInsert, alookup, hne]
    · simp only [btInsert, if_neg hkk, alookup]
      by_cases hk2 : k'' = k'
      · simp [hk2]
      · simp only [if_neg hk2]
        exact ih

/-- Helper: membership in the key list after an insert. -/
theorem mem_keys_btInsert {α : Type} (acc : List (String × α)) (k x : String)
    (v : α) :
    x ∈ (btInsert acc k v).map Prod.fst ↔ x ∈ acc.map Prod.fst ∨ x = k := by
  induction acc with
  | nil => simp [btInsert]
  | cons p rest ih =>
    obtain ⟨k', v'⟩ := p
    by_cases hkk : k = k'
    · subst hkk
      have hb : btInsert ((k, v') :: rest) k v = (k, v) :: rest := by
        simp [btInsert]
      rw [hb]
      simp only [List.map_cons, List.mem_cons]
      tauto
    · simp only [btInsert, if_neg hkk, List.map_cons, List.mem_cons, ih]
      tauto

/-- Helper: inserting preserves distinctness of the keys. -/
theorem nodup_keys_btInsert {α : Type} (acc : List (String × α)) (k : String)
    (v : α) (h : (acc.map Prod.fst).Nodup) :
    ((btInsert acc k v).map Prod.fst).Nodup := by
  induction acc with
  | nil => simp [btInsert]
  | cons p rest ih =>
    obtain ⟨k', v'⟩ := p
    simp only [List.map_cons, List.nodup_cons] at h
    by_cases hkk : k = k'
    · subst hkk
      have hb : btInsert ((k, v') :: rest) k v = (k, v) :: rest := by
        simp [btInsert]
      rw [hb]
      simp only [List.map_cons, List.nodup_cons]
      exact h
    · simp only [btInsert, if_neg hkk, List.map_cons, List.nodup_cons]
      refine ⟨?_, ih h.2⟩
      rw [mem_keys_btInsert]
      rintro (hc | hc)
      · exact h.1 hc
      · exact hkk (hc.symm ▸ rfl)

/-- Helper: folding insertions whose keys avoid `t` does not disturb the
binding of `t`. -/
theorem fold_swap_lookup_skip (t : String) :
    ∀ (l : List (String × String)) (acc : List (String × String)),
      t ∉ l.map Prod.snd →
      alookup (l.foldl (fun m e => btInsert m e.2 e.1) acc) t = alookup acc t := by
  intro l
  induction l with
  | nil => intro acc _; rfl
  | cons p rest ih =>
    intro acc hmem
    obtain ⟨s', t'⟩ := p
    simp only [List.map_cons, List.mem_cons, not_or] at hmem
    simp only [List.foldl_cons]
    rw [ih (btInsert acc t' s') hmem.2]
    exact alookup_btInsert_other acc t' t s' hmem.1

/-- Helper: when the values of the loaded table are pairwise distinct, the
swap-and-collect fold recovers every entry. -/
theorem fold_swap_lookup (m : List (String × String)) :
    ∀ (acc : List (String × String)), (m.map Prod.snd).Nodup →
      ∀ p ∈ m, alookup (m.foldl (fun mm e => btInsert mm e.2 e.1) acc) p.2 = some p.1 := by
  induction m with
  | nil => intro acc _ p hp; exact absurd hp (List.not_mem_nil p)
  | cons q rest ih =>
    intro acc hnd p hp
    obtain ⟨s, t⟩ := q
    simp only [List.map_cons, List.nodup_cons] at hnd
    simp only [List.foldl_cons]
    rcases List.mem_cons.mp hp with hq | hq
    · rw [hq]
      rw [fold_swap_lookup_skip t rest (btInsert acc t s) hnd.1]
      exact alookup_btInsert_self acc t s
    · exact ih (btInsert acc t s) hnd.2 p hq

/-- Helper: the fold keeps the accumulated key list duplicate-free. -/
theorem fold_swap_nodup_keys :
    ∀ (m acc : List (String × String)), (acc.map Prod.fst).Nodup →
      (((m.foldl (fun mm e => btInsert mm e.2 e.1) acc)).map Prod.fst).Nodup := by
  intro m
  induction m with
  | nil => intro acc h; exact h
  | cons q rest ih =>
    intro acc h
    simp only [List.foldl_cons]
    exact ih (btInsert acc q.2 q.1) (nodup_keys_btInsert acc q.2 q.1 h)

/-- C3 (amended): for every loaded token table whose symbols are pairwise
distinct (as in the actual token source file), the assembled output's
inverted table maps symbol→spelling with no entry lost — every loaded entry
`(spelling, symbol)` is recovered as `symbol → spelling` — and its symbol
keys are duplicate-free (the key-distinctness holds for every input).
(The only change from the claim as stated: when two distinct spellings map
to one symbol, the map collected from the swapped pairs keeps only the last
such entry, losing the others, as the counterexample shows.) -/
theorem C3_token_roundtrip (m : List (String × String))
    (hv : (m.map Prod.snd).Nodup) :
    (∀ p ∈ m, alookup (invertTokens m) p.2 = some p.1) ∧
    ((invertTokens m).map Prod.fst).Nodup := by
  constructor
  · exact fold_swap_lookup m [] hv
  · exact fold_swap_nodup_keys m [] (by simp)

/-- C3 witness: a concrete injective two-entry table round-trips both
entries through the inversion. -/
theorem C3_token_roundtrip_witness :
    (∀ p ∈ [("+", "Add"), ("-", "Sub")],
      alookup (invertTokens [("+", "Add"), ("-", "Sub")]) p.2 = some p.1) ∧
    ((invertTokens [("+", "Add"), ("-", "Sub")]).map Prod.fst).Nodup :=
  C3_token_roundtrip [("+", "Add"), ("-", "Sub")] (by decide)

/-- Helper: a successful resolution is the end point of the alias chain,
reached within the given fuel, and has no alias entry. -/
theorem resolveAliases_chain (al : List (String × String)) :
    ∀ (fuel : Nat) (n r : String), resolveAliases al fuel n = some r →
      ∃ k, k ≤ fuel ∧ (aliasStep al)^[k] n = r ∧ alookup al r = none := by
  intro fuel
  induction fuel with
  | zero =>
    intro n r h
    unfold resolveAliases at h
    cases hl : alookup al n with
    | none =>
      rw [hl] at h
      simp only [Option.some.injEq] at h
      subst h
      exact ⟨0, Nat.le_refl 0, rfl, hl⟩
    | some a => rw [hl] at h; exact Option.noConfusion h
  | succ f ih =>
    intro n r h
    unfold resolveAliases at h
    cases hl : alookup al n with
    | none =>
      rw [hl] at h
      simp only [Option.some.injEq] at h
      subst h
      exact ⟨0, Nat.zero_le _, rfl, hl⟩
    | some a =>
      rw [hl] at h
      obtain ⟨k, hk, hit, hterm⟩ := ih a r h
      refine ⟨k + 1, Nat.succ_le_succ hk, ?_, hterm⟩
      rw [Function.iterate_succ_apply]
      have hstep : aliasStep al n = a := by simp [aliasStep, hl]
      rw [hstep]
      exact hit

/-- Helper: if the alias chain reaches a terminal name in `k` steps, fuel `k`
suffices for the loop. -/
theorem chain_resolveAliases (al : List (String × String)) :
    ∀ (k : Nat) (n : String), alookup al ((aliasStep al)^[k] n) = none →
      ∃ r, resolveAliases al k n = some r := by
  intro k
  induction k with
  | zero =>
    intro n h
    simp only [Function.iterate_zero, id_eq] at h
    refine ⟨n, ?_⟩
    unfold resolveAliases
    rw [h]
  | succ f ih =>
    intro n h
    cases hl : alookup al n with
    | none =>
      refine ⟨n, ?_⟩
      unfold resolveAliases
      rw [hl]
    | some a =>
      have hstep : aliasStep al n = a := by simp [aliasStep, hl]
      rw [Function.iterate_succ_apply, hstep] at h
      obtain ⟨r, hr⟩ := ih a h
      refine ⟨r, ?_⟩
      unfold resolveAliases
      rw [hl]
      exact hr

/-- Helper: a failed (fuel-exhausted) resolution means every chain position
up to the fuel bound still has an alias entry. -/
theorem resolveAliases_none_chain (al : List (String × String)) :
    ∀ (fuel : Nat) (n : String), resolveAliases al fuel n = none →
      ∀ i, i ≤ fuel → (alookup al ((aliasStep al)^[i] n)).isSome := by
  intro fuel
  induction fuel with
  | zero =>
    intro n h i hi
    have hi0 : i = 0 := Nat.le_zero.mp hi
    subst hi0
    unfold resolveAliases at h
    cases hl : alookup al n with
    | none => rw [hl] at h; exact Option.noConfusion h
    | some a => simp [hl]
  | succ f ih =>
    intro n h i hi
    unfold resolveAliases at h
    cases hl : alookup al n with
    | none => rw [hl] at h; exact Option.noConfusion h
    | some a =>
      rw [hl] at h
      cases i with
      | zero => simp [hl]
      | succ i' =>
        rw [Function.iterate_succ_apply]
        have hstep : aliasStep al n = a := by simp [aliasStep, hl]
        rw [hstep]
        exact ih a h i' (Nat.succ_le_succ_iff.mp hi)

/-- Helper: a successful association lookup means the key occurs in the key
list. -/
theorem alookup_mem_keys {α : Type} :
    ∀ (al : List (String × α)) (x : String) (y : α),
      alookup al x = some y → x ∈ al.map Prod.fst := by
  intro al
  induction al with
  | nil => intro x y h; exact Option.noConfusion h
  | cons p rest ih =>
    intro x y h
    obtain ⟨k, v⟩ := p
    simp only [alookup] at h
    by_cases hx : x = k
    · simp [hx]
    · rw [if_neg hx] at h
      simp only [List.map_cons, List.mem_cons]
      exact Or.inr (ih x y h)

/-- Helper (pigeonhole): if no cycle of the alias table is reachable from
`n`, then fuel equal to the table size makes the loop succeed — otherwise
the first `|al| + 1` chain positions would all be alias keys and two of them
would coincide, exhibiting a reachable cycle. -/
theorem noCycle_resolve (al : List (String × String)) (n : String)
    (hnc : NoCycleFrom al n) :
    ∃ r, resolveAliases al al.length n = some r := by
  cases hres : resolveAliases al al.length n with
  | some r => exact ⟨r, rfl⟩
  | none =>
    exfalso
    have hchain := resolveAliases_none_chain al al.length n hres
    have hmaps : ∀ i : Fin (al.length + 1),
        (aliasStep al)^[i.val] n ∈ (al.map Prod.fst).toFinset := by
      intro i
      have hs := hchain i.val (Nat.lt_succ_iff.mp i.isLt)
      obtain ⟨y, hy⟩ := Option.isSome_iff_exists.mp hs
      exact List.mem_toFinset.mpr (alookup_mem_keys al _ y hy)
    have hcard : (al.map Prod.fst).toFinset.card
        < (Finset.univ : Finset (Fin (al.length + 1))).card := by
      rw [Finset.card_univ, Fintype.card_fin]
      calc (al.map Prod.fst).toFinset.card
          ≤ (al.map Prod.fst).length := (al.map Prod.fst).toFinset_card_le
        _ = al.length := List.length_map al Prod.fst
        _ < al.length + 1 := Nat.lt_succ_self _
    obtain ⟨i, -, j, -, hij, heq⟩ :=
      Finset.exists_ne_map_eq_of_card_lt_of_maps_to hcard (fun i _ => hmaps i)
    have key : ∀ (a b : Fin (al.length + 1)), a.val < b.val →
        (aliasStep al)^[a.val] n = (aliasStep al)^[b.val] n → False := by
      intro a b hab hab2
      have hsplit : (aliasStep al)^[b.val] n
          = (aliasStep al)^[b.val - a.val] ((aliasStep al)^[a.val] n) := by
        conv_lhs => rw [show b.val = (b.val - a.val) + a.val from
          (Nat.sub_add_cancel (Nat.le_of_lt hab)).symm]
        rw [Function.iterate_add_apply]
      have hcyc : (aliasStep al)^[b.val - a.val] ((aliasStep al)^[a.val] n)
          = (aliasStep al)^[a.val] n := by
        rw [← hsplit, ← hab2]
      have hsome := hchain a.val (Nat.lt_succ_iff.mp
        (Nat.lt_trans hab b.isLt))
      exact hnc a.val (b.val - a.val) (Nat.sub_pos_of_lt hab) hsome hcyc
    rcases Nat.lt_trichotomy i.val j.val with hlt | hEq | hgt
    · exact key i j hlt heq
    · exact hij (Fin.ext hEq)
    · exact key j i hgt heq.symm

/-- C10: the alias-substitution loop performs no cycle detection — it
terminates (some fuel suffices) exactly when the chain of alias-table
substitutions from the queried name reaches a name with no alias entry —
and under the precondition that no cycle of the alias table (viewed as a
name→name graph) is reachable from the queried name, fuel equal to the
table size already suffices, making the resolution step of `introspect_type`
total on that name. -/
theorem C10_alias_loop_termination (al : List (String × String)) (n : String) :
    ((∃ fuel r, resolveAliases al fuel n = some r) ↔
      ∃ k, alookup al ((aliasStep al)^[k] n) = none) ∧
    (NoCycleFrom al n → ∃ r, resolveAliases al al.length n = some r) := by
  refine ⟨⟨?_, ?_⟩, noCycle_resolve al n⟩
  · rintro ⟨fuel, r, h⟩
    obtain ⟨k, -, hit, hterm⟩ := resolveAliases_chain al fuel n r h
    exact ⟨k, hit ▸ hterm⟩
  · rintro ⟨k, h⟩
    obtain ⟨r, hr⟩ := chain_resolveAliases al k n h
    exact ⟨k, r, hr⟩

/-- C10 witness: the one-entry acyclic table `A → B` resolves `A` with fuel
equal to the table size. -/
theorem C10_alias_loop_termination_witness :
    ∃ r, resolveAliases [("A", "B")]
      ([("A", "B")] : List (String × String)).length "A" = some r := by
  apply (C10_alias_loop_termination [("A", "B")] "A").2
  intro j k hk hsome
  have hA : aliasStep [("A", "B")] "A" = "B" := rfl
  have hB : aliasStep [("A", "B")] "B" = "B" := rfl
  have hiter : ∀ m, 0 < m → (aliasStep [("A", "B")])^[m] "A" = "B" := by
    intro m hm
    cases m with
    | zero => exact absurd hm (Nat.lt_irrefl 0)
    | succ m' =>
      rw [Function.iterate_succ_apply, hA]
      exact Function.iterate_fixed hB m'
  cases j with
  | zero =>
    simp only [Function.iterate_zero, id_eq] at hsome ⊢
    rw [hiter k hk]
    decide
  | succ j' =>
    rw [hiter (j' + 1) (Nat.succ_pos j')] at hsome
    exact absurd hsome (by decide)

/-- Helper: the item loop itself never fabricates a position diagnostic —
any `parseErr` it returns came out of a submodule load. -/
theorem processItems_error_from_sub
    (loadSub : List String → List Attr → Lookup → Except LoadError Lookup)
    (q : List String) (l c : Nat) (C : Prop)
    (hsub : ∀ p' f' lk', loadSub p' f' lk' = .error (.parseErr q l c) → C) :
    ∀ (items : List RsItem) (path : List String) (features : List Attr)
      (lk : Lookup),
      processItems loadSub path features items lk = .error (.parseErr q l c) →
      C := by
  intro items
  induction items with
  | nil =>
    intro path features lk h
    unfold processItems at h
    exact Except.noConfusion h
  | cons it rest ih =>
    intro path features lk h
    cases it with
    | modItem attrs ident inline =>
      simp only [processItems] at h
      split at h
      · exact ih path features lk h
      · split at h
        · exact ih path features lk h
        · split at h
          · rename_i e heq
            simp only [Except.error.injEq] at h
            subst h
            exact hsub _ _ _ heq
          · rename_i lk' heq
            exact ih path features lk' h
    | macItem attrs mac =>
      simp only [processItems] at h
      split at h
      · exact ih path features lk h
      · exact ih path features _ h
    | structItem attrs ident fields =>
      simp only [processItems] at h
      split at h
      · exact ih path features _ h
      · exact ih path features lk h
    | useItem visPub tree =>
      simp only [processItems] at h
      split at h
      · exact ih path features _ h
      · exact ih path features lk h
    | otherItem =>
      simp only [processItems] at h
      exact ih path features lk h

/-- Helper: every position diagnostic produced by the crawl names a file that
actually fails to parse, at its error's 1-based line and 1-based
(column + 1) position. -/
theorem loadFile_error_sound (fs : List String → Option SrcFile) :
    ∀ (fuel : Nat) (p : List String) (features : List Attr) (lk : Lookup)
      (q : List String) (l c : Nat),
      loadFile fs fuel p features lk = .error (.parseErr q l c) →
      ∃ sp : Span, fs q = some (.parseFailure sp) ∧
        l = sp.line ∧ c = sp.column + 1 := by
  intro fuel
  induction fuel with
  | zero =>
    intro p features lk q l c h
    unfold loadFile at h
    simp only [Except.error.injEq] at h
    exact LoadError.noConfusion h
  | succ f ih =>
    intro p features lk q l c h
    unfold loadFile at h
    cases hfs : fs p with
    | none =>
      simp only [hfs, Except.error.injEq] at h
      exact LoadError.noConfusion h
    | some sf =>
      cases sf with
      | parseFailure sp =>
        simp only [hfs, Except.error.injEq] at h
        obtain ⟨hp, hl, hc⟩ := LoadError.parseErr.inj h
        exact ⟨sp, by rw [← hp]; exact hfs, hl.symm, hc.symm⟩
      | parsed items =>
        simp only [hfs] at h
        exact processItems_error_from_sub _ q l c _
          (fun p' f' lk' hh => ih p' f' lk' q l c hh) items p features lk h

/-- C9: a source file that fails to parse during the crawl makes the whole
run fail with a single error carrying that file's path, its (already
1-based) error line, and its 0-based error column converted to 1-based by
adding one; conversely, every position diagnostic the crawl surfaces names a
file that really fails to parse at exactly that position — an error produced
inside a submodule crawl is propagated to the root unchanged. -/
theorem C9_parse_error_reporting (fs : List String → Option SrcFile) :
    (∀ (fuel : Nat) (p : List String) (features : List Attr) (lk : Lookup)
      (sp : Span), fs p = some (.parseFailure sp) →
      loadFile fs (fuel + 1) p features lk
        = .error (.parseErr p sp.line (sp.column + 1))) ∧
    (∀ (fuel : Nat) (p : List String) (features : List Attr) (lk : Lookup)
      (q : List String) (l c : Nat),
      loadFile fs fuel p features lk = .error (.parseErr q l c) →
      ∃ sp : Span, fs q = some (.parseFailure sp) ∧
        l = sp.line ∧ c = sp.column + 1) := by
  refine ⟨?_, loadFile_error_sound fs⟩
  intro fuel p features lk sp hp
  unfold loadFile
  rw [hp]

/-- A two-file modelled source tree: the crate root declares `mod expr;`, and
`src/expr.rs` fails to parse at line 3, column 7 (0-based). -/
def fsDemo : List String → Option SrcFile := fun p =>
  if p = ["src", "lib.rs"] then some (.parsed [.modItem [] "expr" false])
  else if p = ["src", "expr.rs"] then some (.parseFailure ⟨3, 7⟩)
  else none

/-- C9 witness: crawling the demo tree from the root fails with the
submodule's path and position (column reported 1-based as 8), and that
diagnostic is sound: the named file indeed fails to parse there. -/
theorem C9_parse_error_reporting_witness :
    ∃ sp : Span, fsDemo ["src", "expr.rs"] = some (.parseFailure sp) ∧
      3 = sp.line ∧ 8 = sp.column + 1 :=
  (C9_parse_error_reporting fsDemo).2 2 ["src", "lib.rs"] [] emptyLookup
    ["src", "expr.rs"] 3 8 rfl

end Syn
